import Mathlib

/-!
Shallow embedding of the caching-benchmark repository: the workload
generator, the benchmark engine's worker loop and metric aggregation, the
Ristretto + Redis pub/sub caching strategy, and the percentile computation
of the final comparison. Wall-clock durations and the random sources are
inputs to the model; remote calls take their results as explicit inputs
since the network can fail independently of the store's data.
-/

namespace CachingBenchmark

/-- Operation kinds from the workload package (ReadOp / WriteOp). -/
inductive OperationType
  | readOp
  | writeOp
deriving DecidableEq, Repr, Inhabited

/-- Operation from the workload package: a kind and a target key. -/
structure Operation where
  type : OperationType
  key : String
deriving DecidableEq, Repr, Inhabited

/-- Read/write classification shared by Generate and GenerateUniform:
`opType := ReadOp; if rng.Float64() > readWriteRatio { opType = WriteOp }`.
The uniform draw in [0,1) is modelled as a rational input. -/
def classifyOp (draw ratio : ℚ) : OperationType :=
  if draw > ratio then .writeOp else .readOp

/-- Key formatting `fmt.Sprintf("key-%d", n)` used by both generators. -/
def formatKey (n : Nat) : String :=
  "key-" ++ toString n

/-- Generate (workload package): for each operation the code draws a key
rank from the Zipf generator and then a ratio value from Float64; `draws`
lists those two random results per operation, in order. -/
def Generate (draws : List (Nat × ℚ)) (ratio : ℚ) : List Operation :=
  draws.map fun d => { type := classifyOp d.2 ratio, key := formatKey d.1 }

/-- GenerateUniform (workload package): identical loop body except the key
rank comes from `rng.Intn(numKeys)`; `draws` lists the key rank and the
Float64 ratio draw per operation. -/
def GenerateUniform (draws : List (Nat × ℚ)) (ratio : ℚ) : List Operation :=
  draws.map fun d => { type := classifyOp d.2 ratio, key := formatKey d.1 }

/-- Lowercase hex digit, as Go's %x verb prints. -/
def hexDigit (n : Nat) : Char :=
  if n < 10 then Char.ofNat (48 + n) else Char.ofNat (87 + n)

/-- Hex encoding of a byte sequence: two lowercase digits per byte, which is
what `fmt.Sprintf("%x", b)` produces for a []byte. -/
def hexOfBytes : List Nat → List Char
  | [] => []
  | b :: bs => hexDigit (b % 256 / 16) :: hexDigit (b % 256 % 16) :: hexOfBytes bs

/-- generateValue(size) (benchmark.go): fill a buffer of `size` bytes from
crypto/rand and return `fmt.Sprintf("%x", b)`. `randByte i` is the i-th
random byte the reader produced. -/
def generateValue (size : Nat) (randByte : Nat → Nat) : String :=
  String.mk (hexOfBytes ((List.range size).map randByte))

/-- Result record of the benchmark package. The wall-clock fields
(TotalDuration, OpsPerSecond) are outside the embedding; HitRate is
modelled as a rational; Latencies hold per-operation durations in
nanoseconds. -/
structure Result where
  StrategyName : String
  TotalOperations : Nat
  TotalHits : Nat
  TotalMisses : Nat
  TotalWrites : Nat
  TotalErrors : Nat
  HitRate : ℚ
  Latencies : List Nat
deriving DecidableEq, Repr

/-- Result as NewRunner creates it: all counters and HitRate at their zero
values, no latencies recorded. -/
def initialResult (name : String) : Result :=
  { StrategyName := name, TotalOperations := 0, TotalHits := 0,
    TotalMisses := 0, TotalWrites := 0, TotalErrors := 0, HitRate := 0,
    Latencies := [] }

/-- What one worker iteration observed for one operation: the operation's
kind and key, the values the strategy call returned (hit flag for reads,
error for both), and the measured wall-clock latency, which is an input to
the model. -/
inductive OpTrace
  | read (key value : String) (hit : Bool) (err : Option String) (lat : Nat)
  | write (key : String) (err : Option String) (lat : Nat)
deriving DecidableEq, Repr

/-- One iteration of the worker loop body (benchmark.go, worker): increment
TotalHits/TotalMisses for an error-free read according to the hit flag,
TotalWrites for an error-free write, record the latency, and increment
TotalErrors when the strategy call returned an error. -/
def workerStep (r : Result) (t : OpTrace) : Result :=
  match t with
  | .read _ _ hit err lat =>
    let r1 :=
      match err with
      | none =>
        if hit then { r with TotalHits := r.TotalHits + 1 }
        else { r with TotalMisses := r.TotalMisses + 1 }
      | some _ => r
    let r2 := { r1 with Latencies := r1.Latencies ++ [lat] }
    match err with
    | none => r2
    | some _ => { r2 with TotalErrors := r2.TotalErrors + 1 }
  | .write _ err lat =>
    let r1 :=
      match err with
      | none => { r with TotalWrites := r.TotalWrites + 1 }
      | some _ => r
    let r2 := { r1 with Latencies := r1.Latencies ++ [lat] }
    match err with
    | none => r2
    | some _ => { r2 with TotalErrors := r2.TotalErrors + 1 }

/-- Workers drain the closed queue, so every workload operation is processed
exactly once; the counters use atomic increments and the latency channel
holds one record per operation, so the aggregate is independent of the
interleaving and the run is modelled as a fold of worker iterations over
the trace of per-operation observations. -/
def processTrace (r : Result) (ts : List OpTrace) : Result :=
  ts.foldl workerStep r

/-- calculateFinalMetrics, hit-rate part (benchmark.go): HitRate is assigned
only when TotalHits+TotalMisses > 0 and otherwise keeps its zero value. -/
def calculateFinalMetrics (r : Result) : Result :=
  if r.TotalHits + r.TotalMisses > 0 then
    { r with HitRate := (r.TotalHits : ℚ) / ((r.TotalHits : ℚ) + (r.TotalMisses : ℚ)) }
  else r

/-- Run (benchmark.go): when the strategy's Init returns an error, Run
returns the untouched initial result together with the wrapped error before
any worker starts; otherwise all workers process the whole workload,
TotalOperations is set to the workload length, latencies are collected and
the final metrics computed, and no error is returned. `initErr` is Init's
result and `trace` the per-operation observations of the full workload. -/
def RunEngine (name : String) (initErr : Option String) (trace : List OpTrace) :
    Result × Option String :=
  match initErr with
  | some e => (initialResult name, some ("failed to initialize strategy: " ++ e))
  | none =>
    let r := processTrace (initialResult name) trace
    let r1 := { r with TotalOperations := trace.length }
    (calculateFinalMetrics r1, none)

/-- Read operation that completed without error (classified hit or miss). -/
def isReadOk : OpTrace → Bool
  | .read _ _ _ none _ => true
  | _ => false

/-- Write operation that completed without error. -/
def isWriteOk : OpTrace → Bool
  | .write _ none _ => true
  | _ => false

/-- Operation whose strategy call returned an error. -/
def isErr : OpTrace → Bool
  | .read _ _ _ (some _) _ => true
  | .write _ (some _) _ => true
  | _ => false

theorem workerStep_hits_misses (r : Result) (t : OpTrace) :
    (workerStep r t).TotalHits + (workerStep r t).TotalMisses =
      r.TotalHits + r.TotalMisses + (if isReadOk t then 1 else 0) := by
  cases t with
  | read k v hit err lat =>
    rcases err with _ | e <;> cases hit <;> simp [workerStep, isReadOk] <;> omega
  | write k err lat =>
    rcases err with _ | e <;> simp [workerStep, isReadOk]

theorem workerStep_writes (r : Result) (t : OpTrace) :
    (workerStep r t).TotalWrites =
      r.TotalWrites + (if isWriteOk t then 1 else 0) := by
  cases t with
  | read k v hit err lat =>
    rcases err with _ | e <;> cases hit <;> simp [workerStep, isWriteOk]
  | write k err lat =>
    rcases err with _ | e <;> simp [workerStep, isWriteOk]

theorem workerStep_errors (r : Result) (t : OpTrace) :
    (workerStep r t).TotalErrors =
      r.TotalErrors + (if isErr t then 1 else 0) := by
  cases t with
  | read k v hit err lat =>
    rcases err with _ | e <;> cases hit <;> simp [workerStep, isErr]
  | write k err lat =>
    rcases err with _ | e <;> simp [workerStep, isErr]

theorem workerStep_latencies (r : Result) (t : OpTrace) :
    (workerStep r t).Latencies.length = r.Latencies.length + 1 := by
  cases t with
  | read k v hit err lat =>
    rcases err with _ | e <;> cases hit <;> simp [workerStep]
  | write k err lat =>
    rcases err with _ | e <;> simp [workerStep]

theorem processTrace_hits_misses (ts : List OpTrace) (r : Result) :
    (processTrace r ts).TotalHits + (processTrace r ts).TotalMisses =
      r.TotalHits + r.TotalMisses + ts.countP isReadOk := by
  induction ts generalizing r with
  | nil => simp [processTrace]
  | cons t ts ih =>
    have h := workerStep_hits_misses r t
    simp only [processTrace, List.foldl_cons, List.countP_cons] at *
    rw [ih]
    split <;> simp_all <;> omega

theorem processTrace_writes (ts : List OpTrace) (r : Result) :
    (processTrace r ts).TotalWrites = r.TotalWrites + ts.countP isWriteOk := by
  induction ts generalizing r with
  | nil => simp [processTrace]
  | cons t ts ih =>
    have h := workerStep_writes r t
    simp only [processTrace, List.foldl_cons, List.countP_cons] at *
    rw [ih]
    split <;> simp_all <;> omega

theorem processTrace_errors (ts : List OpTrace) (r : Result) :
    (processTrace r ts).TotalErrors = r.TotalErrors + ts.countP isErr := by
  induction ts generalizing r with
  | nil => simp [processTrace]
  | cons t ts ih =>
    have h := workerStep_errors r t
    simp only [processTrace, List.foldl_cons, List.countP_cons] at *
    rw [ih]
    split <;> simp_all <;> omega

theorem processTrace_latencies (ts : List OpTrace) (r : Result) :
    (processTrace r ts).Latencies.length = r.Latencies.length + ts.length := by
  induction ts generalizing r with
  | nil => simp [processTrace]
  | cons t ts ih =>
    have h := workerStep_latencies r t
    simp only [processTrace, List.foldl_cons, List.length_cons] at *
    rw [ih, h]
    omega

theorem countP_partition (ts : List OpTrace) :
    ts.countP isReadOk + ts.countP isWriteOk + ts.countP isErr = ts.length := by
  induction ts with
  | nil => simp
  | cons t ts ih =>
    rcases t with ⟨k, v, hit, err, lat⟩ | ⟨k, err, lat⟩ <;>
      rcases err with _ | e <;>
      simp [List.countP_cons, isReadOk, isWriteOk, isErr] <;> omega

theorem calculateFinalMetrics_counters (r : Result) :
    (calculateFinalMetrics r).TotalHits = r.TotalHits ∧
    (calculateFinalMetrics r).TotalMisses = r.TotalMisses ∧
    (calculateFinalMetrics r).TotalWrites = r.TotalWrites ∧
    (calculateFinalMetrics r).TotalErrors = r.TotalErrors ∧
    (calculateFinalMetrics r).TotalOperations = r.TotalOperations ∧
    (calculateFinalMetrics r).Latencies = r.Latencies := by
  unfold calculateFinalMetrics
  split <;> simp

/-- InvalidationMessage from the implementations package:
`type InvalidationMessage struct { Key string }` with json tag "key". -/
structure InvalidationMessage where
  key : String
deriving DecidableEq, Repr

/-- One entry of the Ristretto L1 cache: the key, the stored value and the
cost passed to Set. -/
structure CacheEntry where
  key : String
  value : String
  cost : Int
deriving DecidableEq, Repr

/-- L1 cache content, newest entry first. Ristretto's Get/Set/Del are
modelled as association-list lookup, upsert and delete; its internal
admission and eviction policy is outside the embedding. -/
abbrev L1Cache := List CacheEntry

/-- l1Cache.Get(key). -/
def l1Get (c : L1Cache) (key : String) : Option String :=
  (c.find? fun e => e.key == key).map CacheEntry.value

/-- l1Cache.Del(key): every entry for the key is removed. -/
def l1Del (c : L1Cache) (key : String) : L1Cache :=
  c.filter fun e => e.key != key

/-- l1Cache.Set(key, value, cost): upsert of the entry for the key. -/
def l1Set (c : L1Cache) (key value : String) (cost : Int) : L1Cache :=
  { key := key, value := value, cost := cost } :: l1Del c key

/-- Redis data as a key-value association list, updated by SET. -/
def redisSet (kv : List (String × String)) (key value : String) :
    List (String × String) :=
  (key, value) :: kv.filter fun p => p.1 != key

/-- State of one RistrettoPubSubStrategy instance as seen by the embedding:
its L1 cache, the remote store's data, and the invalidation messages whose
PUBLISH command the strategy has issued so far. -/
structure StrategyState where
  l1Cache : L1Cache
  redis : List (String × String)
  published : List InvalidationMessage
deriving DecidableEq, Repr

/-- Outcome of RistrettoPubSubStrategy.Read: the Go return triple
(value, hit, err), the resulting strategy state, and whether a remote GET
was issued. -/
structure ReadOutcome where
  state : StrategyState
  value : String
  hit : Bool
  err : Option String
  remoteCalled : Bool
deriving DecidableEq, Repr

/-- RistrettoPubSubStrategy.Read: check L1 first and return the cached value
with hit=true on a hit; on an L1 miss issue a GET against Redis
(`remoteResp` is that call's result — an input, since the call can fail
independently of the data) and on success populate L1 with cost
int64(len(value)), returning hit=false; a remote error is returned as is. -/
def stratRead (st : StrategyState) (key : String)
    (remoteResp : Except String String) : ReadOutcome :=
  match l1Get st.l1Cache key with
  | some v =>
    { state := st, value := v, hit := true, err := none, remoteCalled := false }
  | none =>
    match remoteResp with
    | .ok v =>
      { state := { st with l1Cache := l1Set st.l1Cache key v (v.utf8ByteSize : Int) },
        value := v, hit := false, err := none, remoteCalled := true }
    | .error e =>
      { state := st, value := "", hit := false, err := some e, remoteCalled := true }

/-- RistrettoPubSubStrategy.Write: SET the value in Redis and return the SET
error if any; otherwise issue a PUBLISH of the marshalled
InvalidationMessage for the key and return the PUBLISH call's error.
`setErr` and `pubErr` are the two remote calls' error results. The L1 cache
is never touched. -/
def stratWrite (st : StrategyState) (key value : String)
    (setErr pubErr : Option String) : StrategyState × Option String :=
  match setErr with
  | some e => (st, some e)
  | none =>
    ({ st with redis := redisSet st.redis key value,
               published := st.published ++ [{ key := key }] }, pubErr)

/-- Field assignment of Go's json.Unmarshal into InvalidationMessage, given
the string fields of an already parsed JSON object: the "key" field when
present, otherwise the zero value "". -/
def unmarshalInvalidation (fields : List (String × String)) : InvalidationMessage :=
  { key := ((fields.find? fun p => p.1 == "key").map Prod.snd).getD "" }

/-- Body of the pub/sub callback in listenForInvalidations: a message that
fails to unmarshal is dropped; otherwise the parsed key is deleted from L1
only when it is non-empty. `parsed` is json.Unmarshal's view of the payload:
`.error` for a payload that does not parse (or whose "key" is not a string),
`.ok` with the object's string fields otherwise. The callback returns
nothing, so only the new L1 content is produced. -/
def listenerHandleMessage (c : L1Cache)
    (parsed : Except String (List (String × String))) : L1Cache :=
  match parsed with
  | .error _ => c
  | .ok fields =>
    let m := unmarshalInvalidation fields
    if m.key ≠ "" then l1Del c m.key else c

/-- Sentinel for Go's context.Canceled error value. -/
def contextCanceled : String := "context canceled"

/-- Tail of listenForInvalidations after Receive returns: the terminal error
is logged only when it is non-nil and distinct from context.Canceled. The
goroutine returns nothing to the Engine or any caller; the produced value is
the list of log lines emitted. -/
def listenerOnReceiveReturn (recvErr : Option String) : List String :=
  match recvErr with
  | none => []
  | some e =>
    if e = contextCanceled then [] else ["Error in Pub/Sub listener: " ++ e]

/-- Strategy invocation recorded with the arguments the worker passed. -/
inductive StratCall
  | readCall (key : String)
  | writeCall (key value : String)
deriving DecidableEq, Repr

/-- Worker (benchmark.go): `valueToWrite := generateValue(r.valueSizeBytes)`
runs once before the loop, and every WriteOp passes that same string to the
strategy. The produced list records the strategy calls the worker issues for
its operations, in order. -/
def workerCalls (valueSizeBytes : Nat) (randByte : Nat → Nat)
    (ops : List Operation) : List StratCall :=
  let valueToWrite := generateValue valueSizeBytes randByte
  ops.map fun op =>
    match op.type with
    | .readOp => .readCall op.key
    | .writeOp => .writeCall op.key valueToWrite

/-- P95 computation in printFinalComparison: sort the run's latencies
ascending; when there are more than 20 samples take the element at index
int(float64(len) * 0.95) — the float product is exact at every feasible
length, so the index is floor(0.95 * len) = 95 * len / 100 — and otherwise
report the zero value. -/
def p95Latency (lats : List Nat) : Nat :=
  let sorted := lats.insertionSort (· ≤ ·)
  if 20 < lats.length then sorted.getD (95 * lats.length / 100) 0 else 0

theorem workerStep_hitRate (r : Result) (t : OpTrace) :
    (workerStep r t).HitRate = r.HitRate := by
  cases t with
  | read k v hit err lat =>
    rcases err with _ | e <;> cases hit <;> simp [workerStep]
  | write k err lat =>
    rcases err with _ | e <;> simp [workerStep]

theorem processTrace_hitRate (ts : List OpTrace) (r : Result) :
    (processTrace r ts).HitRate = r.HitRate := by
  induction ts generalizing r with
  | nil => simp [processTrace]
  | cons t ts ih =>
    simp only [processTrace, List.foldl_cons] at *
    rw [ih, workerStep_hitRate]

theorem runEngine_counts (name : String) (trace : List OpTrace) :
    (RunEngine name none trace).1.TotalHits + (RunEngine name none trace).1.TotalMisses
      = trace.countP isReadOk ∧
    (RunEngine name none trace).1.TotalWrites = trace.countP isWriteOk ∧
    (RunEngine name none trace).1.TotalErrors = trace.countP isErr ∧
    (RunEngine name none trace).1.TotalOperations = trace.length ∧
    (RunEngine name none trace).1.Latencies.length = trace.length := by
  have h1 := processTrace_hits_misses trace (initialResult name)
  have h2 := processTrace_writes trace (initialResult name)
  have h3 := processTrace_errors trace (initialResult name)
  have h4 := processTrace_latencies trace (initialResult name)
  have hc := calculateFinalMetrics_counters
    { processTrace (initialResult name) trace with TotalOperations := trace.length }
  obtain ⟨c1, c2, c3, c4, c5, c6⟩ := hc
  simp only [RunEngine]
  refine ⟨?_, ?_, ?_, ?_, ?_⟩ <;>
    simp_all [initialResult, c1, c2, c3, c4, c5, c6]

/-- C1: for a completed run in which every operation completes, the final
counters sum to TotalOperations and the latency list has exactly
TotalOperations elements; TotalHits + TotalMisses counts exactly the Read
operations that completed without error, TotalWrites the error-free writes
and TotalErrors the erroring operations, so an operation that errors is
counted only in TotalErrors and never as a hit, miss or write. -/
theorem counters_invariant (name : String) (trace : List OpTrace) :
    (RunEngine name none trace).1.TotalHits + (RunEngine name none trace).1.TotalMisses
        + (RunEngine name none trace).1.TotalWrites
        + (RunEngine name none trace).1.TotalErrors
      = (RunEngine name none trace).1.TotalOperations ∧
    (RunEngine name none trace).1.Latencies.length
      = (RunEngine name none trace).1.TotalOperations ∧
    (RunEngine name none trace).1.TotalHits + (RunEngine name none trace).1.TotalMisses
      = trace.countP isReadOk ∧
    (RunEngine name none trace).1.TotalWrites = trace.countP isWriteOk ∧
    (RunEngine name none trace).1.TotalErrors = trace.countP isErr := by
  obtain ⟨c1, c2, c3, c4, c5⟩ := runEngine_counts name trace
  have h5 := countP_partition trace
  exact ⟨by omega, by omega, c1, c2, c3⟩

/-- C4: Run returns an error exactly when the strategy's Init does; on an
Init error the returned result is the untouched initial one, so no operation
executed; and with a successful Init no per-operation error in the trace
ever makes Run return an error. -/
theorem run_error_spec (name : String) (initErr : Option String)
    (trace : List OpTrace) :
    ((RunEngine name initErr trace).2.isSome ↔ initErr.isSome) ∧
    (∀ e, initErr = some e →
      (RunEngine name initErr trace).1 = initialResult name ∧
      (RunEngine name initErr trace).2 =
        some ("failed to initialize strategy: " ++ e)) ∧
    (initErr = none → (RunEngine name initErr trace).2 = none) := by
  rcases initErr with _ | e <;> simp [RunEngine]

theorem run_error_spec_witness :
    (RunEngine "s" (some "boom") [OpTrace.read "k" "" true none 5]).1 =
      initialResult "s" ∧
    (RunEngine "s" (some "boom") [OpTrace.read "k" "" true none 5]).2 =
      some ("failed to initialize strategy: " ++ "boom") ∧
    (RunEngine "s" none [OpTrace.read "k" "" true (some "netfail") 5]).2 = none :=
  ⟨((run_error_spec "s" (some "boom") [OpTrace.read "k" "" true none 5]).2.1
      "boom" rfl).1,
   ((run_error_spec "s" (some "boom") [OpTrace.read "k" "" true none 5]).2.1
      "boom" rfl).2,
   (run_error_spec "s" none [OpTrace.read "k" "" true (some "netfail") 5]).2.2 rfl⟩

/-- C5: the aggregated hit rate is TotalHits / (TotalHits + TotalMisses)
whenever at least one read completed without error, and a run with zero such
reads reports a hit rate of exactly 0. -/
theorem hitRate_spec (name : String) (trace : List OpTrace) :
    (0 < trace.countP isReadOk →
      (RunEngine name none trace).1.HitRate =
        ((RunEngine name none trace).1.TotalHits : ℚ) /
          (((RunEngine name none trace).1.TotalHits : ℚ) +
            ((RunEngine name none trace).1.TotalMisses : ℚ))) ∧
    (trace.countP isReadOk = 0 → (RunEngine name none trace).1.HitRate = 0) := by
  have h1 : (processTrace (initialResult name) trace).TotalHits +
      (processTrace (initialResult name) trace).TotalMisses = trace.countP isReadOk := by
    have h := processTrace_hits_misses trace (initialResult name)
    have h0 : (initialResult name).TotalHits = 0 := rfl
    have h0' : (initialResult name).TotalMisses = 0 := rfl
    omega
  have hr : (processTrace (initialResult name) trace).HitRate = 0 := by
    rw [processTrace_hitRate]
    rfl
  simp only [RunEngine]
  constructor
  · intro hpos
    have hgt : 0 < (processTrace (initialResult name) trace).TotalHits +
        (processTrace (initialResult name) trace).TotalMisses := by omega
    simp [calculateFinalMetrics, hgt]
  · intro hzero
    have hgt : ¬ (0 < (processTrace (initialResult name) trace).TotalHits +
        (processTrace (initialResult name) trace).TotalMisses) := by omega
    simp [calculateFinalMetrics, hgt, hr]

theorem hitRate_spec_witness :
    ((RunEngine "s" none [OpTrace.read "k" "v" true none 5,
        OpTrace.read "k2" "w" false none 7]).1).HitRate =
      (((RunEngine "s" none [OpTrace.read "k" "v" true none 5,
          OpTrace.read "k2" "w" false none 7]).1).TotalHits : ℚ) /
        ((((RunEngine "s" none [OpTrace.read "k" "v" true none 5,
            OpTrace.read "k2" "w" false none 7]).1).TotalHits : ℚ) +
          (((RunEngine "s" none [OpTrace.read "k" "v" true none 5,
              OpTrace.read "k2" "w" false none 7]).1).TotalMisses : ℚ)) ∧
    ((RunEngine "s" none [OpTrace.write "k" none 3]).1).HitRate = 0 :=
  ⟨(hitRate_spec "s" [OpTrace.read "k" "v" true none 5,
      OpTrace.read "k2" "w" false none 7]).1 (by decide),
   (hitRate_spec "s" [OpTrace.write "k" none 3]).2 (by decide)⟩

/-- C2: Read checks the local cache first: a local hit returns the cached
value with hit=true, no error, no remote call and an unchanged state; on a
local miss the remote GET is issued and, on success, the fetched value is
returned with hit=false while the local cache is populated with it at a
cost equal to the value's byte size; a remote fetch error is returned to
the caller unmodified with the local cache unchanged. -/
theorem stratRead_spec (st : StrategyState) (key : String)
    (resp : Except String String) :
    (∀ v, l1Get st.l1Cache key = some v →
      stratRead st key resp =
        { state := st, value := v, hit := true, err := none,
          remoteCalled := false }) ∧
    (l1Get st.l1Cache key = none →
      (∀ v, resp = .ok v →
        stratRead st key resp =
          { state := { st with
              l1Cache := l1Set st.l1Cache key v (v.utf8ByteSize : Int) },
            value := v, hit := false, err := none, remoteCalled := true }) ∧
      (∀ e, resp = .error e →
        stratRead st key resp =
          { state := st, value := "", hit := false, err := some e,
            remoteCalled := true })) := by
  refine ⟨?_, ?_⟩
  · intro v hv
    simp [stratRead, hv]
  · intro hn
    refine ⟨?_, ?_⟩
    · intro v hv
      subst hv
      simp [stratRead, hn]
    · intro e he
      subst he
      simp [stratRead, hn]

theorem stratRead_spec_witness :
    stratRead { l1Cache := [{ key := "k", value := "v", cost := 1 }],
                redis := [], published := [] } "k" (.error "down") =
      { state := { l1Cache := [{ key := "k", value := "v", cost := 1 }],
                   redis := [], published := [] },
        value := "v", hit := true, err := none, remoteCalled := false } ∧
    stratRead { l1Cache := [], redis := [], published := [] } "k" (.ok "ab") =
      { state := { l1Cache := l1Set [] "k" "ab" (("ab".utf8ByteSize : Nat) : Int),
                   redis := [], published := [] },
        value := "ab", hit := false, err := none, remoteCalled := true } ∧
    stratRead { l1Cache := [], redis := [], published := [] } "k" (.error "down") =
      { state := { l1Cache := [], redis := [], published := [] },
        value := "", hit := false, err := some "down", remoteCalled := true } :=
  ⟨(stratRead_spec { l1Cache := [{ key := "k", value := "v", cost := 1 }],
                     redis := [], published := [] } "k" (.error "down")).1 "v"
      (by decide),
   ((stratRead_spec { l1Cache := [], redis := [], published := [] } "k"
        (.ok "ab")).2 (by decide)).1 "ab" rfl,
   ((stratRead_spec { l1Cache := [], redis := [], published := [] } "k"
        (.error "down")).2 (by decide)).2 "down" rfl⟩

/-- C3: Write never removes or modifies the writer's own local cache entry
for the key — the L1 cache is unchanged on every path; on a successful SET
the value is written through to the remote store, the invalidation message
for the key is then published, and the PUBLISH call's error result is
returned; on a SET error that error is returned and the state is
unchanged. -/
theorem stratWrite_spec (st : StrategyState) (key value : String)
    (setErr pubErr : Option String) :
    (stratWrite st key value setErr pubErr).1.l1Cache = st.l1Cache ∧
    (setErr = none →
      (stratWrite st key value setErr pubErr).1.redis = redisSet st.redis key value ∧
      (stratWrite st key value setErr pubErr).1.published
        = st.published ++ [{ key := key }] ∧
      (stratWrite st key value setErr pubErr).2 = pubErr) ∧
    (∀ e, setErr = some e →
      (stratWrite st key value setErr pubErr) = (st, some e)) := by
  rcases setErr with _ | e <;> simp [stratWrite]

theorem stratWrite_spec_witness :
    (stratWrite { l1Cache := [{ key := "k", value := "old", cost := 3 }],
                  redis := [], published := [] } "k" "new" none none).1.l1Cache =
      [{ key := "k", value := "old", cost := 3 }] ∧
    (stratWrite { l1Cache := [{ key := "k", value := "old", cost := 3 }],
                  redis := [], published := [] } "k" "new" none none).1.redis =
      redisSet [] "k" "new" ∧
    (stratWrite { l1Cache := [{ key := "k", value := "old", cost := 3 }],
                  redis := [], published := [] } "k" "new" none none).1.published =
      [] ++ [{ key := "k" }] ∧
    (stratWrite { l1Cache := [{ key := "k", value := "old", cost := 3 }],
                  redis := [], published := [] } "k" "new" none none).2 = none ∧
    stratWrite { l1Cache := [], redis := [], published := [] } "k" "v"
        (some "setfail") none =
      ({ l1Cache := [], redis := [], published := [] }, some "setfail") :=
  ⟨(stratWrite_spec { l1Cache := [{ key := "k", value := "old", cost := 3 }],
                      redis := [], published := [] } "k" "new" none none).1,
   ((stratWrite_spec { l1Cache := [{ key := "k", value := "old", cost := 3 }],
                       redis := [], published := [] } "k" "new" none none).2.1 rfl).1,
   ((stratWrite_spec { l1Cache := [{ key := "k", value := "old", cost := 3 }],
                       redis := [], published := [] } "k" "new" none none).2.1 rfl).2.1,
   ((stratWrite_spec { l1Cache := [{ key := "k", value := "old", cost := 3 }],
                       redis := [], published := [] } "k" "new" none none).2.1 rfl).2.2,
   (stratWrite_spec { l1Cache := [], redis := [], published := [] } "k" "v"
      (some "setfail") none).2.2 "setfail" rfl⟩

/-- C8: a message that fails to parse is silently dropped — the local cache
is left unchanged and the callback yields no eviction and no error to any
caller — and the listener's terminal receive error emits no log line when it
is nil or the expected cancellation, while any other terminal error only
produces a log line, never a value surfaced to the Engine. -/
theorem listener_error_spec :
    (∀ (c : L1Cache) (e : String), listenerHandleMessage c (.error e) = c) ∧
    listenerOnReceiveReturn none = [] ∧
    listenerOnReceiveReturn (some contextCanceled) = [] ∧
    (∀ e, e ≠ contextCanceled →
      listenerOnReceiveReturn (some e) = ["Error in Pub/Sub listener: " ++ e]) := by
  refine ⟨fun c e => rfl, rfl, ?_, fun e he => ?_⟩
  · simp [listenerOnReceiveReturn]
  · simp [listenerOnReceiveReturn, he]

theorem listener_error_spec_witness :
    listenerHandleMessage [{ key := "k", value := "v", cost := 1 }]
        (.error "invalid json") = [{ key := "k", value := "v", cost := 1 }] ∧
    listenerOnReceiveReturn (some "network down") =
      ["Error in Pub/Sub listener: " ++ "network down"] :=
  ⟨listener_error_spec.1 [{ key := "k", value := "v", cost := 1 }] "invalid json",
   listener_error_spec.2.2.2 "network down" (by decide)⟩

/-- C10: a well-formed invalidation message whose parsed key is empty —
in particular one whose "key" field is absent, which json.Unmarshal leaves
at the zero value — evicts nothing, leaving the local cache unchanged;
a message with a non-empty parsed key k deletes exactly the entries for k:
every entry for another key survives and every surviving entry was already
present with a key other than k. -/
theorem invalidation_key_spec (c : L1Cache) (fields : List (String × String)) :
    ((unmarshalInvalidation fields).key = "" →
      listenerHandleMessage c (.ok fields) = c) ∧
    ((fields.find? fun p => p.1 == "key") = none →
      listenerHandleMessage c (.ok fields) = c) ∧
    (∀ k, (unmarshalInvalidation fields).key = k → k ≠ "" →
      listenerHandleMessage c (.ok fields) = l1Del c k ∧
      (∀ e ∈ c, e.key ≠ k → e ∈ listenerHandleMessage c (.ok fields)) ∧
      (∀ e ∈ listenerHandleMessage c (.ok fields), e ∈ c ∧ e.key ≠ k)) := by
  refine ⟨?_, ?_, ?_⟩
  · intro h
    simp [listenerHandleMessage, h]
  · intro h
    simp [listenerHandleMessage, unmarshalInvalidation, h]
  · intro k hk hne
    rw [← hk] at hne ⊢
    have hmain : listenerHandleMessage c (.ok fields)
        = l1Del c (unmarshalInvalidation fields).key := by
      simp [listenerHandleMessage, hne]
    refine ⟨hmain, ?_, ?_⟩
    · intro e he hek
      rw [hmain]
      simp [l1Del, List.mem_filter, he, hek]
    · intro e he
      rw [hmain] at he
      simp [l1Del, List.mem_filter] at he
      exact ⟨he.1, he.2⟩

theorem invalidation_key_spec_witness :
    listenerHandleMessage
        [{ key := "a", value := "1", cost := 1 },
         { key := "b", value := "2", cost := 1 }]
        (.ok [("other", "x")]) =
      [{ key := "a", value := "1", cost := 1 },
       { key := "b", value := "2", cost := 1 }] ∧
    listenerHandleMessage
        [{ key := "a", value := "1", cost := 1 },
         { key := "b", value := "2", cost := 1 }]
        (.ok [("key", "")]) =
      [{ key := "a", value := "1", cost := 1 },
       { key := "b", value := "2", cost := 1 }] ∧
    listenerHandleMessage
        [{ key := "a", value := "1", cost := 1 },
         { key := "b", value := "2", cost := 1 }]
        (.ok [("key", "a")]) =
      l1Del [{ key := "a", value := "1", cost := 1 },
             { key := "b", value := "2", cost := 1 }] "a" :=
  ⟨(invalidation_key_spec
      [{ key := "a", value := "1", cost := 1 },
       { key := "b", value := "2", cost := 1 }] [("other", "x")]).2.1 (by decide),
   (invalidation_key_spec
      [{ key := "a", value := "1", cost := 1 },
       { key := "b", value := "2", cost := 1 }] [("key", "")]).1 (by decide),
   ((invalidation_key_spec
      [{ key := "a", value := "1", cost := 1 },
       { key := "b", value := "2", cost := 1 }] [("key", "a")]).2.2 "a"
      (by decide) (by decide)).1⟩

theorem classifyOp_eq_write_iff (draw ratio : ℚ) :
    classifyOp draw ratio = .writeOp ↔ ratio < draw := by
  unfold classifyOp
  split <;> simp_all

theorem generate_getD (draws : List (Nat × ℚ)) (ratio : ℚ) (i : Nat)
    (h : i < draws.length) :
    (Generate draws ratio).getD i default =
      { type := classifyOp (draws.getD i default).2 ratio,
        key := formatKey (draws.getD i default).1 } := by
  induction draws generalizing i with
  | nil => simp at h
  | cons d ds ih =>
    cases i with
    | zero => rfl
    | succ j =>
      simp only [Generate, List.map_cons, List.getD_cons_succ] at *
      exact ih j (by simpa using h)

/-- C6: in both generators an operation is classified Write exactly when its
uniform random draw strictly exceeds readWriteRatio; consequently when
readWriteRatio = 1 and every draw lies in [0,1), every generated operation
is a Read. -/
theorem classify_spec (draws : List (Nat × ℚ)) (ratio : ℚ) :
    (∀ i, i < draws.length →
      (((Generate draws ratio).getD i default).type = .writeOp ↔
        ratio < (draws.getD i default).2)) ∧
    (∀ i, i < draws.length →
      (((GenerateUniform draws ratio).getD i default).type = .writeOp ↔
        ratio < (draws.getD i default).2)) ∧
    ((∀ d ∈ draws, 0 ≤ d.2 ∧ d.2 < 1) → ratio = 1 →
      (∀ op ∈ Generate draws ratio, op.type = .readOp) ∧
      (∀ op ∈ GenerateUniform draws ratio, op.type = .readOp)) := by
  have huni : GenerateUniform draws ratio = Generate draws ratio := rfl
  have hread : (∀ d ∈ draws, 0 ≤ d.2 ∧ d.2 < 1) → ratio = 1 →
      ∀ op ∈ Generate draws ratio, op.type = .readOp := by
    intro hd hr op hop
    simp only [Generate, List.mem_map] at hop
    obtain ⟨d, hdm, hde⟩ := hop
    have hlt := (hd d hdm).2
    have : ¬ (ratio < d.2) := by
      rw [hr]
      exact not_lt.mpr (le_of_lt (lt_of_lt_of_le hlt (by norm_num)))
    rw [← hde]
    simp only [classifyOp]
    rw [if_neg (by simpa using this)]
  refine ⟨?_, ?_, ?_⟩
  · intro i h
    rw [generate_getD draws ratio i h]
    exact classifyOp_eq_write_iff _ _
  · intro i h
    rw [huni, generate_getD draws ratio i h]
    exact classifyOp_eq_write_iff _ _
  · intro hd hr
    exact ⟨hread hd hr, by rw [huni]; exact hread hd hr⟩

theorem classify_spec_witness :
    (((Generate [(3, (3 : ℚ)/4)] ((1 : ℚ)/2)).getD 0 default).type = .writeOp ↔
      (1 : ℚ)/2 < (([((3 : Nat), (3 : ℚ)/4)].getD 0 default).2)) ∧
    ((Generate [((0 : Nat), (0 : ℚ))] 1).getD 0 default).type = .readOp ∧
    ((GenerateUniform [((0 : Nat), (0 : ℚ))] 1).getD 0 default).type = .readOp :=
  ⟨(classify_spec [(3, (3 : ℚ)/4)] ((1 : ℚ)/2)).1 0 (by decide),
   ((classify_spec [((0 : Nat), (0 : ℚ))] 1).2.2
      (by intro d hd; simp at hd; simp [hd]) rfl).1
     (((Generate [((0 : Nat), (0 : ℚ))] 1).getD 0 default)) (by decide),
   ((classify_spec [((0 : Nat), (0 : ℚ))] 1).2.2
      (by intro d hd; simp at hd; simp [hd]) rfl).2
     (((GenerateUniform [((0 : Nat), (0 : ℚ))] 1).getD 0 default)) (by decide)⟩

theorem hexOfBytes_length (bs : List Nat) :
    (hexOfBytes bs).length = 2 * bs.length := by
  induction bs with
  | nil => rfl
  | cons b bs ih =>
    simp only [hexOfBytes, List.length_cons, ih]
    omega

theorem generateValue_length (size : Nat) (randByte : Nat → Nat) :
    (generateValue size randByte).length = 2 * size := by
  show (hexOfBytes ((List.range size).map randByte)).length = 2 * size
  rw [hexOfBytes_length]
  simp

/-- C7 is false as stated: generateValue hex-encodes valueSizeBytes random
bytes, so the payload a worker generates for valueSizeBytes = 1 is the
2-character string "00" (for a zero byte), not a string of size 1. -/
theorem worker_payload_counterexample :
    (generateValue 1 (fun _ => 0)).length = 2 ∧
    (generateValue 1 (fun _ => 0)).length ≠ 1 := by
  decide

/-- C7 amended: each worker generates exactly one payload before processing
any operation — the hex encoding of valueSizeBytes random bytes, a string of
length 2 * valueSizeBytes — and passes that same string to the strategy for
every Write operation it performs. -/
theorem worker_payload_spec (valueSizeBytes : Nat) (randByte : Nat → Nat)
    (ops : List Operation) :
    (generateValue valueSizeBytes randByte).length = 2 * valueSizeBytes ∧
    (∀ k v, StratCall.writeCall k v ∈ workerCalls valueSizeBytes randByte ops →
      v = generateValue valueSizeBytes randByte) := by
  refine ⟨generateValue_length valueSizeBytes randByte, ?_⟩
  intro k v hv
  simp only [workerCalls, List.mem_map] at hv
  obtain ⟨op, hop, heq⟩ := hv
  cases h : op.type <;> rw [h] at heq <;> simp at heq
  exact heq.2.symm

theorem worker_payload_spec_witness :
    StratCall.writeCall "w" "ab" ∈
      workerCalls 1 (fun _ => 171) [{ type := .writeOp, key := "w" }] ∧
    "ab" = generateValue 1 (fun _ => 171) ∧
    (generateValue 1 (fun _ => 171)).length = 2 * 1 :=
  ⟨by decide,
   (worker_payload_spec 1 (fun _ => 171) [{ type := .writeOp, key := "w" }]).2
     "w" "ab" (by decide),
   (worker_payload_spec 1 (fun _ => 171) [{ type := .writeOp, key := "w" }]).1⟩

/-- C9: the reported 95th-percentile latency is the element at index
floor(0.95 * count) of the latency sequence sorted ascending — the sorted
sequence is an ascending permutation of the recorded latencies and the
index is in range — and it is computed only when the sample count exceeds
the threshold of 20; at or below that threshold the reported value is 0. -/
theorem p95_spec (lats : List Nat) :
    (lats.length ≤ 20 → p95Latency lats = 0) ∧
    (20 < lats.length →
      (lats.insertionSort (· ≤ ·)).Perm lats ∧
      (lats.insertionSort (· ≤ ·)).Sorted (· ≤ ·) ∧
      95 * lats.length / 100 < (lats.insertionSort (· ≤ ·)).length ∧
      p95Latency lats =
        (lats.insertionSort (· ≤ ·)).getD (95 * lats.length / 100) 0) := by
  constructor
  · intro h
    have hn : ¬ 20 < lats.length := by omega
    simp [p95Latency, hn]
  · intro h
    have hperm := List.perm_insertionSort (· ≤ ·) lats
    have hlen : (lats.insertionSort (· ≤ ·)).length = lats.length :=
      hperm.length_eq
    refine ⟨hperm, List.sorted_insertionSort (· ≤ ·) lats, ?_, ?_⟩
    · rw [hlen]
      have h100 : (0 : Nat) < 100 := by norm_num
      rw [Nat.div_lt_iff_lt_mul h100]
      omega
    · simp [p95Latency, h]

theorem p95_spec_witness :
    ((List.range 21).insertionSort (· ≤ ·)).Perm (List.range 21) ∧
    ((List.range 21).insertionSort (· ≤ ·)).Sorted (· ≤ ·) ∧
    95 * (List.range 21).length / 100 <
      ((List.range 21).insertionSort (· ≤ ·)).length ∧
    p95Latency (List.range 21) =
      ((List.range 21).insertionSort (· ≤ ·)).getD
        (95 * (List.range 21).length / 100) 0 ∧
    p95Latency [5] = 0 :=
  ⟨((p95_spec (List.range 21)).2 (by decide)).1,
   ((p95_spec (List.range 21)).2 (by decide)).2.1,
   ((p95_spec (List.range 21)).2 (by decide)).2.2.1,
   ((p95_spec (List.range 21)).2 (by decide)).2.2.2,
   (p95_spec [5]).1 (by decide)⟩

end CachingBenchmark
